import Mathlib

/-!
Shallow embedding of `src/src/time/Clock.js` (`Phaser.Clock`).

The clock owns a built-in `events` timer and a list `_timers` of managed
timers.  `Phaser.Timer` itself is an external collaborator (its code is not
part of this repository's source): we model a timer as an opaque handle
carrying the identity and the auto-destroy flag it was constructed with,
and we parametrise the operations by oracles describing the collaborator's
behaviour:

* `upd : Nat → Bool` gives, for a managed timer's id, the boolean its
  `update()` call returns during the current clock update pass;
* `app : Nat → List Timer` gives the timers that this timer's `update()`
  callback appends to `_timers` (via reentrant `create`) during its call;
* `eventsAlive : Bool` is the value the built-in timer's bare
  `this.events.update()` call would return (the JS code discards it).

Observable side effects (which timer methods the clock invokes, in order)
are recorded in an event trace, so that claims such as "each surviving
timer's `update()` is called exactly once per clock update" become
statements about the trace.

JavaScript numbers are modelled as `Int` (exact arithmetic); the opaque
`game` reference carried by the clock plays no role in any operation and
is omitted.
-/

namespace Phaser

/-- Handle to an external `Phaser.Timer` collaborator: its identity and the
`autoDestroy` flag passed to its constructor. -/
structure Timer where
  id : Nat
  autoDestroy : Bool
deriving DecidableEq, Repr

/-- One observable call the clock makes on a timer collaborator. -/
inductive Ev where
  /-- `this._timers[i].update()` on the managed timer with this id. -/
  | timerUpdate (id : Nat)
  /-- `this._timers[i].destroy()` on the managed timer with this id. -/
  | timerDestroy (id : Nat)
  /-- the bare `this.events.update()` call. -/
  | eventsUpdate
  /-- `this.events.removeAll()`. -/
  | eventsRemoveAll
  /-- `this.events.start()` from the constructor. -/
  | eventsStart
deriving DecidableEq, Repr

/-- State of a `Phaser.Clock`: fields `now`, `timeScale`, `paused`,
`events` and `_timers` from the source.  `nextId` is the embedding's
supply of fresh identities for timers built by `create`. -/
structure Clock where
  now : Int
  timeScale : Int
  paused : Bool
  events : Timer
  timers : List Timer
  nextId : Nat
deriving DecidableEq, Repr

/-- The `Phaser.Clock` constructor: `now = 0`, `timeScale = 1`,
`paused = false`, `events = new Phaser.Timer(game, false, this)`,
`_timers = []`, then `this.events.start()`. -/
def Clock.init : Clock × List Ev :=
  ({ now := 0, timeScale := 1, paused := false,
     events := { id := 0, autoDestroy := false },
     timers := [], nextId := 1 },
   [Ev.eventsStart])

/-- `Phaser.Clock.prototype.create`: default the missing argument to
`true`, build a `new Phaser.Timer(this.game, autoDestroy, this)`, push it
onto `_timers` and return it.  No timer method is invoked (`start()` in
particular is not), hence the empty trace. -/
def Clock.create (c : Clock) (autoDestroy : Option Bool) :
    Clock × Timer × List Ev :=
  let ad := autoDestroy.getD true
  let timer : Timer := { id := c.nextId, autoDestroy := ad }
  ({ c with timers := c.timers ++ [timer], nextId := c.nextId + 1 },
   timer, [])

/-- `Phaser.Clock.prototype.removeAll`: call `destroy()` on every entry of
`_timers` in order, replace `_timers` by `[]`, then call
`this.events.removeAll()`. -/
def Clock.removeAll (c : Clock) : Clock × List Ev :=
  ({ c with timers := [] },
   c.timers.map (fun t => Ev.timerDestroy t.id) ++ [Ev.eventsRemoveAll])

/-- The `while (this._i < this._len)` loop of
`Phaser.Clock.prototype.update`: call `_timers[_i].update()`; any timers
the callback creates are pushed at the end (`app`); on a truthy result
advance `_i`, on a falsy result `splice(_i, 1)` and decrement `_len`. -/
def Clock.scanTimers (upd : Nat → Bool) (app : Nat → List Timer)
    (i len : Nat) (ts : List Timer) : List Timer × List Ev :=
  if h : i < len then
    match ts[i]? with
    | some t =>
      let ts2 := ts ++ app t.id
      if upd t.id then
        let r := Clock.scanTimers upd app (i + 1) len ts2
        (r.1, Ev.timerUpdate t.id :: r.2)
      else
        let r := Clock.scanTimers upd app i (len - 1) (ts2.eraseIdx i)
        (r.1, Ev.timerUpdate t.id :: r.2)
    | none => (ts, [])
  else (ts, [])
termination_by len - i
decreasing_by
  · omega
  · omega

/-- `Phaser.Clock.prototype.update`: if `paused`, do nothing; otherwise
`now += elapsed * timeScale`, then the bare `this.events.update()` call
(whose boolean result `eventsAlive` is discarded), then the scan of
`_timers` with `_i = 0`, `_len = _timers.length`. -/
def Clock.update (c : Clock) (upd : Nat → Bool) (app : Nat → List Timer)
    (eventsAlive : Bool) (elapsed : Int) : Clock × List Ev :=
  if c.paused then (c, [])
  else
    let c1 : Clock := { c with now := c.now + elapsed * c.timeScale }
    let r := Clock.scanTimers upd app 0 c1.timers.length c1.timers
    ({ c1 with timers := r.1 }, Ev.eventsUpdate :: r.2)

/-- `Phaser.Clock.prototype.elapsedSince`: `return this.now - since;`. -/
def Clock.elapsedSince (c : Clock) (since : Int) : Int :=
  c.now - since

/-- `Phaser.Clock.prototype.reset`: `this.now = 0; this.removeAll();`. -/
def Clock.reset (c : Clock) : Clock × List Ev :=
  Clock.removeAll { c with now := 0 }

/-- Iterate `update` over a list of elapsed deltas (fixed oracles). -/
def Clock.runUpdates (upd : Nat → Bool) (app : Nat → List Timer)
    (eventsAlive : Bool) : Clock → List Int → Clock
  | c, [] => c
  | c, e :: es =>
      Clock.runUpdates upd app eventsAlive
        (Clock.update c upd app eventsAlive e).1 es

/-- One public operation on the clock, for runs of operation sequences.
`updateOp` carries the per-pass liveness oracle and the discarded result
of the built-in timer's update; reentrant `create` is excluded here
(the spec's single-threaded caller contract). -/
inductive Op where
  | createOp (autoDestroy : Option Bool)
  | removeAllOp
  | resetOp
  | updateOp (upd : Nat → Bool) (eventsAlive : Bool) (elapsed : Int)

/-- Apply one operation, keeping its trace. -/
def Clock.step (c : Clock) : Op → Clock × List Ev
  | Op.createOp ad => ((Clock.create c ad).1, (Clock.create c ad).2.2)
  | Op.removeAllOp => Clock.removeAll c
  | Op.resetOp => Clock.reset c
  | Op.updateOp upd eventsAlive e =>
      Clock.update c upd (fun _ => []) eventsAlive e

/-- Run a sequence of operations, concatenating the traces. -/
def Clock.run : Clock → List Op → Clock × List Ev
  | c, [] => (c, [])
  | c, op :: ops =>
      let r := Clock.step c op
      let r2 := Clock.run r.1 ops
      (r2.1, r.2 ++ r2.2)

/-- Clock states reachable from construction by the public operations
(`update` here with an arbitrary oracle, reentrant creation included). -/
inductive Reachable : Clock → Prop where
  | init : Reachable Clock.init.1
  | create (c : Clock) (ad : Option Bool) :
      Reachable c → Reachable (Clock.create c ad).1
  | removeAll (c : Clock) : Reachable c → Reachable (Clock.removeAll c).1
  | reset (c : Clock) : Reachable c → Reachable (Clock.reset c).1
  | update (c : Clock) (upd : Nat → Bool) (app : Nat → List Timer)
      (eventsAlive : Bool) (e : Int) :
      Reachable c → Reachable (Clock.update c upd app eventsAlive e).1

/-- Timers appended (via reentrant `create`) by the callbacks of the
listed timers, in call order. -/
def appendedBy (app : Nat → List Timer) : List Timer → List Timer
  | [] => []
  | t :: ts => app t.id ++ appendedBy app ts

theorem getIdx_append_length (l₁ l₂ : List Timer) (x : Timer) :
    (l₁ ++ x :: l₂)[l₁.length]? = some x := by
  induction l₁ with
  | nil => simp
  | cons a l ih => simpa using ih

theorem eraseIdx_append_length (l₁ l₂ : List Timer) (x : Timer) :
    (l₁ ++ x :: l₂).eraseIdx l₁.length = l₁ ++ l₂ := by
  induction l₁ with
  | nil => simp
  | cons a l ih => simpa [List.eraseIdx] using ih

/-- One iteration of the scan loop when the cursor is in range. -/
theorem scanTimers_step (upd : Nat → Bool) (app : Nat → List Timer)
    (i len : Nat) (ts : List Timer) (t : Timer)
    (hlt : i < len) (hget : ts[i]? = some t) :
    Clock.scanTimers upd app i len ts =
      if upd t.id then
        let r := Clock.scanTimers upd app (i + 1) len (ts ++ app t.id)
        (r.1, Ev.timerUpdate t.id :: r.2)
      else
        let r := Clock.scanTimers upd app i (len - 1)
          ((ts ++ app t.id).eraseIdx i)
        (r.1, Ev.timerUpdate t.id :: r.2) := by
  rw [Clock.scanTimers, dif_pos hlt, hget]

/-- Master description of the timer-scan loop.  Starting with the cursor
past an already-scanned prefix `done`, with `_len` covering exactly
`done ++ rest` and with `extra` timers already pushed past `_len`, the
loop calls `update()` exactly once on each element of `rest` in order,
keeps exactly those with a truthy result (order preserved), never touches
`done`, `extra` or anything appended during the pass, and leaves the
appended timers at the tail. -/
theorem scanTimers_spec (upd : Nat → Bool) (app : Nat → List Timer)
    (rest : List Timer) :
    ∀ done extra : List Timer,
      Clock.scanTimers upd app done.length (done.length + rest.length)
          (done ++ rest ++ extra)
        = (done ++ rest.filter (fun t => upd t.id) ++ extra
             ++ appendedBy app rest,
           rest.map (fun t => Ev.timerUpdate t.id)) := by
  induction rest with
  | nil =>
      intro done extra
      rw [Clock.scanTimers]
      simp [appendedBy]
  | cons t rest ih =>
      intro done extra
      have hlt : done.length < done.length + (t :: rest).length := by
        simp only [List.length_cons]
        omega
      have hget : (done ++ (t :: rest) ++ extra)[done.length]? = some t := by
        rw [List.append_assoc]
        exact getIdx_append_length done (rest ++ extra) t
      rw [scanTimers_step upd app _ _ _ t hlt hget]
      by_cases hu : upd t.id
      · rw [if_pos hu]
        have h2 := ih (done ++ [t]) (extra ++ app t.id)
        rw [show (done ++ [t]) ++ rest ++ (extra ++ app t.id)
              = (done ++ (t :: rest) ++ extra) ++ app t.id by simp] at h2
        rw [show (done ++ [t]).length = done.length + 1 by simp] at h2
        rw [show done.length + (t :: rest).length
              = done.length + 1 + rest.length by
            simp only [List.length_cons]; omega]
        rw [h2]
        simp [hu, appendedBy, List.append_assoc]
      · rw [if_neg hu]
        have herase :
            ((done ++ (t :: rest) ++ extra) ++ app t.id).eraseIdx done.length
              = done ++ rest ++ (extra ++ app t.id) := by
          rw [show (done ++ (t :: rest) ++ extra) ++ app t.id
                = done ++ (t :: (rest ++ (extra ++ app t.id))) by simp]
          rw [eraseIdx_append_length done (rest ++ (extra ++ app t.id)) t]
          simp
        rw [herase]
        rw [show done.length + (t :: rest).length - 1
              = done.length + rest.length by
            simp only [List.length_cons]; omega]
        rw [ih done (extra ++ app t.id)]
        simp [hu, appendedBy, List.append_assoc]

/-- The scan as `update` invokes it: whole list, cursor at 0. -/
theorem scanTimers_full (upd : Nat → Bool) (app : Nat → List Timer)
    (ts : List Timer) :
    Clock.scanTimers upd app 0 ts.length ts
      = (ts.filter (fun t => upd t.id) ++ appendedBy app ts,
         ts.map (fun t => Ev.timerUpdate t.id)) := by
  simpa using scanTimers_spec upd app ts [] []

/-- With no reentrant creation nothing is appended. -/
theorem appendedBy_nil (ts : List Timer) :
    appendedBy (fun _ => []) ts = [] := by
  induction ts with
  | nil => rfl
  | cons t ts ih => simp [appendedBy, ih]

/-- Closed form of an unpaused `update`. -/
theorem update_spec (c : Clock) (upd : Nat → Bool) (app : Nat → List Timer)
    (uE : Bool) (e : Int) (h : c.paused = false) :
    Clock.update c upd app uE e
      = ({ c with
           now := c.now + e * c.timeScale,
           timers := c.timers.filter (fun t => upd t.id)
             ++ appendedBy app c.timers },
         Ev.eventsUpdate :: c.timers.map (fun t => Ev.timerUpdate t.id)) := by
  simp [Clock.update, h, scanTimers_full]

/-- `update` never writes `timeScale`, `paused`, `events` or the id
supply. -/
theorem update_preserves (c : Clock) (upd : Nat → Bool)
    (app : Nat → List Timer) (uE : Bool) (e : Int) :
    (Clock.update c upd app uE e).1.paused = c.paused ∧
    (Clock.update c upd app uE e).1.timeScale = c.timeScale ∧
    (Clock.update c upd app uE e).1.events = c.events ∧
    (Clock.update c upd app uE e).1.nextId = c.nextId := by
  by_cases h : c.paused <;> simp [Clock.update, h]

/-- Iterated unpaused updates at `timeScale = 1` add up the deltas. -/
theorem runUpdates_now (upd : Nat → Bool) (app : Nat → List Timer)
    (uE : Bool) (es : List Int) :
    ∀ c : Clock, c.paused = false → c.timeScale = 1 →
      (Clock.runUpdates upd app uE c es).now = c.now + es.sum := by
  induction es with
  | nil =>
      intro c _ _
      simp [Clock.runUpdates]
  | cons e es ih =>
      intro c h1 h2
      have hpres := update_preserves c upd app uE e
      simp only [Clock.runUpdates]
      rw [ih _ (by rw [hpres.1, h1]) (by rw [hpres.2.1, h2])]
      have hn : (Clock.update c upd app uE e).1.now
          = c.now + e * c.timeScale := by
        simp [Clock.update, h1]
      rw [hn, h2]
      simp only [List.sum_cons]
      ring

/-- A `step` never updates a timer whose id is absent from the list and
below the id supply, and keeps that id absent and below the supply. -/
theorem step_fresh (c : Clock) (op : Op) (j : Nat)
    (h1 : ∀ t ∈ c.timers, t.id ≠ j) (h2 : j < c.nextId) :
    Ev.timerUpdate j ∉ (Clock.step c op).2 ∧
    (∀ t ∈ (Clock.step c op).1.timers, t.id ≠ j) ∧
    j < (Clock.step c op).1.nextId := by
  cases op with
  | createOp ad =>
      refine ⟨by simp [Clock.step, Clock.create], ?_, ?_⟩
      · intro t ht
        simp only [Clock.step, Clock.create, List.mem_append,
          List.mem_singleton] at ht
        rcases ht with ht | ht
        · exact h1 t ht
        · rw [ht]
          show ¬ (c.nextId = j)
          omega
      · show j < c.nextId + 1
        omega
  | removeAllOp =>
      refine ⟨?_, by simp [Clock.step, Clock.removeAll], by
        simpa [Clock.step, Clock.removeAll] using h2⟩
      simp [Clock.step, Clock.removeAll]
  | resetOp =>
      refine ⟨?_, by simp [Clock.step, Clock.reset, Clock.removeAll], by
        simpa [Clock.step, Clock.reset, Clock.removeAll] using h2⟩
      simp [Clock.step, Clock.reset, Clock.removeAll]
  | updateOp upd uE e =>
      by_cases hp : c.paused
      · simp only [Clock.step, Clock.update, hp, if_pos]
        exact ⟨by simp, h1, h2⟩
      · rw [Clock.step, update_spec c upd (fun _ => []) uE e
          (by simpa using hp)]
        refine ⟨?_, ?_, by simpa using h2⟩
        · intro hmem
          simp only [List.mem_cons, List.mem_map] at hmem
          rcases hmem with hmem | ⟨t, ht, hid⟩
          · exact Ev.noConfusion hmem
          · exact h1 t ht (by injection hid)
        · intro t ht
          simp only [appendedBy_nil, List.append_nil, List.mem_filter] at ht
          exact h1 t ht.1

/-- Along any run of public operations, an id that is fresh for the
starting state is never the target of a `timerUpdate` call. -/
theorem run_fresh (j : Nat) (ops : List Op) :
    ∀ c : Clock, (∀ t ∈ c.timers, t.id ≠ j) → j < c.nextId →
      Ev.timerUpdate j ∉ (Clock.run c ops).2 := by
  induction ops with
  | nil =>
      intro c _ _
      simp [Clock.run]
  | cons op ops ih =>
      intro c h1 h2
      have hs := step_fresh c op j h1 h2
      simp only [Clock.run, List.mem_append]
      intro hmem
      rcases hmem with hmem | hmem
      · exact hs.1 hmem
      · exact ih _ hs.2.1 hs.2.2 hmem

/-- No public operation ever writes the `events` field. -/
theorem reachable_events (c : Clock) (h : Reachable c) :
    c.events = Clock.init.1.events := by
  induction h with
  | init => rfl
  | create c ad _ ih => simpa [Clock.create] using ih
  | removeAll c _ ih => simpa [Clock.removeAll] using ih
  | reset c _ ih => simpa [Clock.reset, Clock.removeAll] using ih
  | update c upd app uE e _ ih =>
      rw [(update_preserves c upd app uE e).2.2.1]
      exact ih

/-- C1: starting from a fresh clock (where `paused = false` and
`timeScale = 1` hold and are preserved by `update`), any sequence of
updates leaves `now` equal to the sum of the elapsed deltas; and in
general each unpaused `update(elapsed)` adds exactly
`elapsed * timeScale` to `now`. -/
theorem clock_C1_now_accumulates (upd : Nat → Bool)
    (app : Nat → List Timer) (uE : Bool) (es : List Int) :
    (Clock.runUpdates upd app uE Clock.init.1 es).now = es.sum ∧
    ∀ (c : Clock) (e : Int), c.paused = false →
      (Clock.update c upd app uE e).1.now = c.now + e * c.timeScale := by
  constructor
  · simpa [Clock.init] using runUpdates_now upd app uE es Clock.init.1 rfl rfl
  · intro c e h
    simp [Clock.update, h]

theorem clock_C1_witness :
    (Clock.runUpdates (fun _ => true) (fun _ => []) true Clock.init.1
        [16, 16, 16]).now = 48 ∧
    (Clock.update Clock.init.1 (fun _ => true) (fun _ => []) true 5).1.now
      = Clock.init.1.now + 5 * Clock.init.1.timeScale := by
  constructor
  · simpa using
      (clock_C1_now_accumulates (fun _ => true) (fun _ => []) true
        [16, 16, 16]).1
  · exact (clock_C1_now_accumulates (fun _ => true) (fun _ => []) true
      []).2 Clock.init.1 5 rfl

/-- C2: an unpaused `update` (no reentrant creation) calls `update()`
exactly once, in list order, on every managed timer present at entry —
the trace is `eventsUpdate` followed by one `timerUpdate` per timer in
order — and afterwards the list holds exactly the timers whose `update()`
returned true, in their original relative order (falsy entries are
spliced out in the same pass). -/
theorem clock_C2_scan_prunes (c : Clock) (upd : Nat → Bool) (uE : Bool)
    (e : Int) (h : c.paused = false) :
    (Clock.update c upd (fun _ => []) uE e).1.timers
        = c.timers.filter (fun t => upd t.id) ∧
    (Clock.update c upd (fun _ => []) uE e).2
        = Ev.eventsUpdate :: c.timers.map (fun t => Ev.timerUpdate t.id) := by
  rw [update_spec c upd (fun _ => []) uE e h]
  simp [appendedBy_nil]

theorem clock_C2_witness :
    (Clock.update
        { now := 0, timeScale := 1, paused := false,
          events := { id := 0, autoDestroy := false },
          timers := [{ id := 1, autoDestroy := true },
                     { id := 2, autoDestroy := true }],
          nextId := 3 }
        (fun i => decide (i = 2)) (fun _ => []) true 16).1.timers
      = [{ id := 2, autoDestroy := true }] ∧
    (Clock.update
        { now := 0, timeScale := 1, paused := false,
          events := { id := 0, autoDestroy := false },
          timers := [{ id := 1, autoDestroy := true },
                     { id := 2, autoDestroy := true }],
          nextId := 3 }
        (fun i => decide (i = 2)) (fun _ => []) true 16).2
      = [Ev.eventsUpdate, Ev.timerUpdate 1, Ev.timerUpdate 2] := by
  have h := clock_C2_scan_prunes
    { now := 0, timeScale := 1, paused := false,
      events := { id := 0, autoDestroy := false },
      timers := [{ id := 1, autoDestroy := true },
                 { id := 2, autoDestroy := true }],
      nextId := 3 }
    (fun i => decide (i = 2)) true 16 rfl
  refine ⟨?_, ?_⟩
  · rw [h.1]
    decide
  · rw [h.2]
    decide

/-- C3: updating a paused clock is a complete no-op — the state is
returned unchanged and no collaborator method is invoked (empty trace),
whatever the elapsed value and the timers' behaviour. -/
theorem clock_C3_paused_noop (c : Clock) (upd : Nat → Bool)
    (app : Nat → List Timer) (uE : Bool) (e : Int)
    (h : c.paused = true) :
    Clock.update c upd app uE e = (c, []) := by
  simp [Clock.update, h]

theorem clock_C3_witness :
    Clock.update { Clock.init.1 with paused := true } (fun _ => true)
        (fun _ => []) true 100
      = ({ Clock.init.1 with paused := true }, []) :=
  clock_C3_paused_noop _ _ _ _ _ rfl

/-- C4: `removeAll` calls `destroy()` on every managed timer (in list
order), empties the list, and forwards `removeAll()` to the built-in
`events` timer without touching the `events` reference; after
`create()` immediately followed by `removeAll()`, the list is empty and
no later run of public operations ever calls the destroyed timer's
`update()`. -/
theorem clock_C4_removeAll_destroys (c : Clock) (ad : Option Bool)
    (ops : List Op) :
    (Clock.removeAll c).2
        = c.timers.map (fun t => Ev.timerDestroy t.id)
            ++ [Ev.eventsRemoveAll] ∧
    (Clock.removeAll c).1.timers = [] ∧
    (Clock.removeAll c).1.events = c.events ∧
    (Clock.removeAll (Clock.create c ad).1).1.timers = [] ∧
    Ev.timerUpdate (Clock.create c ad).2.1.id
        ∉ (Clock.run (Clock.removeAll (Clock.create c ad).1).1 ops).2 := by
  refine ⟨rfl, rfl, rfl, rfl, ?_⟩
  apply run_fresh
  · intro t ht
    simp [Clock.removeAll] at ht
  · show c.nextId < c.nextId + 1
    omega

theorem clock_C4_witness :
    (Clock.removeAll (Clock.create Clock.init.1 none).1).1.timers = [] ∧
    Ev.timerUpdate (Clock.create Clock.init.1 none).2.1.id
      ∉ (Clock.run (Clock.removeAll (Clock.create Clock.init.1 none).1).1
          [Op.updateOp (fun _ => true) true 16]).2 :=
  ⟨(clock_C4_removeAll_destroys Clock.init.1 none
      [Op.updateOp (fun _ => true) true 16]).2.2.2.1,
   (clock_C4_removeAll_destroys Clock.init.1 none
      [Op.updateOp (fun _ => true) true 16]).2.2.2.2⟩

/-- C5: `reset` zeroes `now` and otherwise behaves exactly like
`removeAll` (same destroyed timers, same trace, `events` schedule
cleared), leaving `timeScale` and `paused` at their current values. -/
theorem clock_C5_reset (c : Clock) :
    Clock.reset c
        = ({ (Clock.removeAll c).1 with now := 0 },
           (Clock.removeAll c).2) ∧
    (Clock.reset c).1.timeScale = c.timeScale ∧
    (Clock.reset c).1.paused = c.paused ∧
    (Clock.reset c).1.now = 0 ∧
    (Clock.reset c).1.timers = [] :=
  ⟨rfl, rfl, rfl, rfl, rfl⟩

/-- C6: in every reachable state the `events` field is still the timer
installed at construction (no operation replaces it), `update`'s result
does not depend on the boolean the bare `events.update()` call returns,
and `events` survives every `update` whatever that boolean is. -/
theorem clock_C6_events_stable (c : Clock) (h : Reachable c) :
    c.events = Clock.init.1.events ∧
    (∀ (upd : Nat → Bool) (app : Nat → List Timer) (b₁ b₂ : Bool)
        (e : Int), Clock.update c upd app b₁ e = Clock.update c upd app b₂ e) ∧
    (∀ (upd : Nat → Bool) (app : Nat → List Timer) (b : Bool) (e : Int),
        (Clock.update c upd app b e).1.events = c.events) := by
  refine ⟨reachable_events c h, fun _ _ _ _ _ => rfl, ?_⟩
  intro upd app b e
  exact (update_preserves c upd app b e).2.2.1

theorem clock_C6_witness :
    (Clock.create Clock.init.1 none).1.events = Clock.init.1.events :=
  (clock_C6_events_stable (Clock.create Clock.init.1 none).1
    (Reachable.create Clock.init.1 none Reachable.init)).1

/-- C7 as stated is false on the code: `update` performs no validation,
so an unpaused update with a negative delta strictly decreases `now`
(here: a fresh clock, `update(-1)`, `now` goes from 0 to -1). -/
theorem clock_C7_counterexample :
    Clock.init.1.paused = false ∧
    (Clock.update Clock.init.1 (fun _ => true) (fun _ => []) true
        (-1)).1.now < Clock.init.1.now := by
  constructor
  · rfl
  · rw [update_spec Clock.init.1 (fun _ => true) (fun _ => []) true (-1) rfl]
    norm_num [Clock.init]

/-- C7 amended: `now` starts at 0 at construction and each unpaused
`update(elapsed)` is non-decreasing on `now` provided the applied delta
`elapsed * timeScale` is non-negative (the code adds it unvalidated, so
a negative product decreases `now`). -/
theorem clock_C7_monotone (c : Clock) (upd : Nat → Bool)
    (app : Nat → List Timer) (uE : Bool) (e : Int)
    (h : c.paused = false) (hnn : 0 ≤ e * c.timeScale) :
    Clock.init.1.now = 0 ∧
    c.now ≤ (Clock.update c upd app uE e).1.now := by
  refine ⟨rfl, ?_⟩
  have hn : (Clock.update c upd app uE e).1.now
      = c.now + e * c.timeScale := by
    simp [Clock.update, h]
  rw [hn]
  exact le_add_of_nonneg_right hnn

theorem clock_C7_witness :
    Clock.init.1.paused = false ∧
    (0 : Int) ≤ 5 * Clock.init.1.timeScale ∧
    (Clock.init.1.now = 0 ∧
      Clock.init.1.now
        ≤ (Clock.update Clock.init.1 (fun _ => true) (fun _ => [])
            true 5).1.now) :=
  ⟨rfl, by norm_num [Clock.init],
   clock_C7_monotone Clock.init.1 (fun _ => true) (fun _ => []) true 5
     rfl (by norm_num [Clock.init])⟩

/-- C8: `elapsedSince` returns exactly `now - since` with no validation;
in the embedding it is a function `Clock → Int → Int`, so it cannot touch
the clock state.  The spec's examples hold: `elapsedSince now = 0` and
`elapsedSince (now - 5) = 5`. -/
theorem clock_C8_elapsedSince_pure (c : Clock) (since : Int) :
    Clock.elapsedSince c since = c.now - since ∧
    Clock.elapsedSince c c.now = 0 ∧
    Clock.elapsedSince c (c.now - 5) = 5 := by
  refine ⟨rfl, ?_, ?_⟩ <;> simp [Clock.elapsedSince]

/-- C9: timers appended to the list during an unpaused update pass (by a
scanned timer's reentrant `create`) are not ticked in that pass — the
pass's trace only ever mentions ids present at entry — they do end up in
the list, and the immediately following unpaused update ticks every
timer then in the list, the appended ones included. -/
theorem clock_C9_reentrant_append (c : Clock) (upd : Nat → Bool)
    (app : Nat → List Timer) (uE : Bool) (e : Int) (j : Nat)
    (h : c.paused = false) (hj : ∀ t ∈ c.timers, t.id ≠ j) :
    Ev.timerUpdate j ∉ (Clock.update c upd app uE e).2 ∧
    (∀ t ∈ appendedBy app c.timers,
        t ∈ (Clock.update c upd app uE e).1.timers) ∧
    (∀ (upd' : Nat → Bool) (app' : Nat → List Timer) (uE' : Bool)
        (e' : Int) (t : Timer), t ∈ (Clock.update c upd app uE e).1.timers →
        Ev.timerUpdate t.id
          ∈ (Clock.update (Clock.update c upd app uE e).1 upd' app'
              uE' e').2) := by
  rw [update_spec c upd app uE e h]
  refine ⟨?_, ?_, ?_⟩
  · intro hmem
    simp only [List.mem_cons, List.mem_map] at hmem
    rcases hmem with hmem | ⟨t, ht, hid⟩
    · exact Ev.noConfusion hmem
    · exact hj t ht (by injection hid)
  · intro t ht
    simp only [List.mem_append]
    exact Or.inr ht
  · intro upd' app' uE' e' t ht
    rw [update_spec _ upd' app' uE' e' (by simpa using h)]
    simp only [List.mem_cons, List.mem_map]
    exact Or.inr ⟨t, by simpa using ht, rfl⟩

theorem clock_C9_witness :
    Ev.timerUpdate 2
      ∉ (Clock.update
          { now := 0, timeScale := 1, paused := false,
            events := { id := 0, autoDestroy := false },
            timers := [{ id := 1, autoDestroy := true }], nextId := 2 }
          (fun _ => true)
          (fun i => if i = 1 then [{ id := 2, autoDestroy := true }] else [])
          true 16).2 :=
  (clock_C9_reentrant_append
    { now := 0, timeScale := 1, paused := false,
      events := { id := 0, autoDestroy := false },
      timers := [{ id := 1, autoDestroy := true }], nextId := 2 }
    (fun _ => true)
    (fun i => if i = 1 then [{ id := 2, autoDestroy := true }] else [])
    true 16 2 rfl (by decide)).1

/-- C10: `create` only appends one new timer — carrying the given
auto-destroy flag, defaulting to `true` when the argument is omitted —
and returns it; `now`, `timeScale`, `paused` and `events` are untouched,
no timer method is invoked (in particular no `start()`, unlike the
constructor, whose trace is exactly the `events.start()` call), and the
result is the same whether the clock is paused or not. -/
theorem clock_C10_create_appends (c : Clock) (ad : Option Bool) (b : Bool) :
    (Clock.create c ad).1.now = c.now ∧
    (Clock.create c ad).1.timeScale = c.timeScale ∧
    (Clock.create c ad).1.paused = c.paused ∧
    (Clock.create c ad).1.events = c.events ∧
    (Clock.create c ad).1.timers = c.timers ++ [(Clock.create c ad).2.1] ∧
    (Clock.create c ad).2.1.autoDestroy = ad.getD true ∧
    (Clock.create c none).2.1.autoDestroy = true ∧
    (Clock.create c ad).2.2 = [] ∧
    Clock.init.2 = [Ev.eventsStart] ∧
    (Clock.create { c with paused := b } ad).2 = (Clock.create c ad).2 ∧
    (Clock.create { c with paused := b } ad).1.timers
      = (Clock.create c ad).1.timers :=
  ⟨rfl, rfl, rfl, rfl, rfl, rfl, rfl, rfl, rfl, rfl, rfl⟩

end Phaser
